import Mathlib

/-!
Verification of the modular-motion animation core against its specification.

The development shallowly embeds the Python source:
* times and values are rationals (Python floats are used only on exactly
  representable small values in the claims considered here);
* Python exceptions are an explicit error type returned through Except;
* Blender collaborator objects (fcurves, keyframes) become plain structures.
-/

namespace ModularMotion

/-- Python runtime errors that the embedded code can raise.
`src/core/errors.py` defines only `UndefinedStageColl` and
`CustomPropertyUnanimatable`; no `DegenerateWindowError` exists anywhere in
the repository.  The constructors below are the built-in Python exceptions
the embedded fragments can actually raise. -/
inductive PyError where
  | zeroDivisionError
  | attributeError
  | indexError
  deriving DecidableEq, Repr

/-- Python's built-in `round` on a rational: round half to even
(banker's rounding), as used in `ActionAnimation.apply_animation`
(`src/core/mobject/action.py`, line 80). -/
def pyRound (q : ℚ) : ℤ :=
  let f := ⌊q⌋
  if q < f + 1/2 then f
  else if f + 1/2 < q then f + 1
  else if f % 2 = 0 then f else f + 1

/-- Function `interp` from `src/core/utils.py` (lines 208-209):
linear map sending `[min, max]` to `[new_min, new_max]`. -/
def interp (x min max new_min new_max : ℚ) : ℚ :=
  ((x - min) / (max - min)) * (new_max - new_min) + new_min

/-- A Bezier handle of a Blender keyframe: absolute (time, value)
coordinates, exactly like `keyframe.handle_left` / `handle_right`. -/
structure Handle where
  time : ℚ
  value : ℚ
  deriving DecidableEq, Repr

/-- A Blender keyframe point (`bpy.types.Keyframe`): `co = (time, value)`,
interpolation/easing/type tags, and two handles in absolute coordinates. -/
structure Keyframe where
  time : ℚ
  value : ℚ
  easing : String
  handle_left_type : String
  handle_right_type : String
  interpolation : String
  type : String
  handle_left : Handle
  handle_right : Handle
  deriving DecidableEq, Repr

/-- Method `ActionAnimation._conform_keyframe` (`src/core/mobject/action.py`,
lines 129-154): copies the five listed tag attributes from `base` to
`target` and sets each handle's time component to
`(base_handle_time - base.co[0]) * scale + target.co[0]`.
The handle value components (`handle[1]`) are not written by the source,
so they keep whatever the target keyframe already had. -/
def conform_keyframe (base target : Keyframe) (scale : ℚ) : Keyframe :=
  { target with
    easing := base.easing
    handle_left_type := base.handle_left_type
    handle_right_type := base.handle_right_type
    interpolation := base.interpolation
    type := base.type
    handle_left :=
      { time := (base.handle_left.time - base.time) * scale + target.time
        value := target.handle_left.value }
    handle_right :=
      { time := (base.handle_right.time - base.time) * scale + target.time
        value := target.handle_right.value } }

/-- The Timeline Host's `keyframe_insert` collaborator (spec section 6):
inserting a keyframe at integer frame `t` after the property was set to
value `v` yields some host-constructed keyframe.  The host is external,
so it is a parameter of the retargeting engine. -/
def HostInsert : Type := ℤ → ℚ → Keyframe

/-- The body of the per-actor loop of `ActionAnimation.apply_animation`
(`src/core/mobject/action.py`, lines 62-95).  The first `while` loop skips
keyframes with `co[0] < base_start_time`; the second processes keyframes
while `co[0] <= base_end_time`, inserting a keyframe at
`round(interp(co[0], base_start, base_end, start, end))` (the value having
been written first) and conforming it to the base keyframe with the given
`scale`. -/
def applyActor (base_start base_end start stop : ℚ) (host : HostInsert)
    (kps : List Keyframe) : List Keyframe :=
  let scale := (stop - start) / (base_end - base_start)
  ((kps.dropWhile (fun k => decide (k.time < base_start))).takeWhile
      (fun k => decide (k.time ≤ base_end))).map
    (fun k =>
      let t := pyRound (interp k.time base_start base_end start stop)
      conform_keyframe k (host t k.value) scale)

/-- Method `ActionAnimation.apply_animation` (`src/core/mobject/action.py`,
lines 51-95) restricted to a single actor's fcurve.  The first statement,
`scale = (end - start) / (self.base_end_time - self.base_start_time)`,
raises Python's `ZeroDivisionError` when the base window has zero width;
no other guard exists in the source. -/
def apply_animation (base_start base_end start stop : ℚ) (host : HostInsert)
    (kps : List Keyframe) : Except PyError (List Keyframe) :=
  if base_end - base_start = 0 then .error .zeroDivisionError
  else .ok (applyActor base_start base_end start stop host kps)

/-! ## Action segmentation engine (`generate_actions`) -/

/-- The per-channel actor scan of `generate_actions`
(`src/core/mobject/action.py`, lines 252-271): walk the keyframe times,
`continue` past points left of the window, `break` as soon as a point
exceeds the window end, count in-window points, and succeed as soon as the
count reaches 2.  `cnt` is the running `k_amount_in_window`. -/
def isActorScan (start stop : ℚ) : List ℚ → Nat → Bool
  | [], _ => false
  | t :: rest, cnt =>
    if t < start then isActorScan start stop rest cnt
    else if stop < t then false
    else if 2 ≤ cnt + 1 then true
    else isActorScan start stop rest (cnt + 1)

/-- Flag `is_an_actor` for one channel and one window, as computed inside
`generate_actions` with `k_amount_in_window` starting at 0. -/
def is_an_actor (start stop : ℚ) (kps : List ℚ) : Bool :=
  isActorScan start stop kps 0

/-- One emitted `ActionAnimation` of `generate_actions`: the window bounds
passed as `base_start_time` / `base_end_time`, and the list of actor
channels (a channel is kept as the list of its keyframe times). -/
structure ActionWindow where
  start : ℚ
  stop : ℚ
  actors : List (List ℚ)
  deriving DecidableEq, Repr

/-- Function `generate_actions` (`src/core/mobject/action.py`, lines 195-286) over
the list of base channels, each given by its keyframe times.
The source reads `keyframe_points[0]` and `keyframe_points[-1]` of every
channel up front, which raises `IndexError` on an empty channel; the
min/max folds start from the sentinels `9999999` and `-9999999`;
`actions_amount = floor((last - first) / width)`; `range` of a
non-positive amount yields no windows.  Python float division raises
`ZeroDivisionError` when `width == 0`. -/
def generate_actions (width : ℚ) (channels : List (List ℚ)) :
    Except PyError (List ActionWindow) :=
  if channels.any List.isEmpty then .error .indexError
  else if width = 0 then .error .zeroDivisionError
  else
    let first := channels.foldl
      (fun acc c => if c.headD 0 < acc then c.headD 0 else acc) 9999999
    let last := channels.foldl
      (fun acc c => if acc < c.getLastD 0 then c.getLastD 0 else acc) (-9999999)
    let amount := ⌊(last - first) / width⌋
    .ok ((List.range amount.toNat).map (fun (i : ℕ) =>
      let s := first + width * (i : ℚ)
      let e := s + width
      { start := s, stop := e
        actors := channels.filter (fun c => is_an_actor s e c) }))

/-! ## Two-phase keyframe stager and `Stage.play` -/

/-- The `type` tag of a planned keyframe: `"start"` or `"end"`. -/
inductive PKType where
  | start
  | stop
  deriving DecidableEq, Repr

/-- A `PlannedKeyframe` (`src/core/animation.py`): the start/end tag, the
target (Blender data-block plus prop path, condensed to one key), and the
optional value (`none` means "capture the current property value"). -/
structure PlannedKeyframe where
  type : PKType
  key : Nat
  value : Option ℚ
  deriving DecidableEq, Repr

/-- One committed keyframe write performed by `Stage.play`: which tag it
came from, the target key, the frame it was inserted at, and the property
value the host captured at insertion time. -/
structure Commit where
  kind : PKType
  key : Nat
  frame : ℚ
  value : ℚ
  deriving DecidableEq, Repr

/-- A property store: the current value of every target (the Blender
scene state mutated by `set_value_by_prop_path`). -/
def Store : Type := Nat → ℚ

/-- Function `set_value_by_prop_path` condensed to the store: point update. -/
def setValue (st : Store) (k : Nat) (v : ℚ) : Store :=
  fun j => if j = k then v else st j

/-- The inner loop body of `Stage.play` (`src/core/stage.py`,
lines 104-116) over one already-filtered phase: for each entry, set the
property when `value is not None`, then `keyframe_insert` at `frame`
(capturing the store's current value for the key). -/
def runEntries (frame : ℚ) (st : Store) :
    List PlannedKeyframe → Store × List Commit
  | [] => (st, [])
  | k :: rest =>
    let st' := match k.value with
      | some v => setValue st k.key v
      | none => st
    let c : Commit := { kind := k.type, key := k.key, frame := frame, value := st' k.key }
    let (st'', cs) := runEntries frame st' rest
    (st'', c :: cs)

/-- Processing of one animatable inside `Stage.play`
(`src/core/stage.py`, lines 95-116): the dumped planned keyframes are
filtered to the `"start"` entries (committed at `curr_time`) and then to
the `"end"` entries (committed at `curr_time + duration`). -/
def playOne (cur duration : ℚ) (st : Store) (pks : List PlannedKeyframe) :
    Store × List Commit :=
  let (s1, cs1) := runEntries cur st (pks.filter (fun k => k.type = PKType.start))
  let (s2, cs2) := runEntries (cur + duration) s1
    (pks.filter (fun k => k.type = PKType.stop))
  (s2, cs1 ++ cs2)

/-- The loop of `Stage.play` over all animatables, threading the store and
collecting each animatable's commit trace. -/
def playAll (cur duration : ℚ) (st : Store) :
    List (List PlannedKeyframe) → Store × List (List Commit)
  | [] => (st, [])
  | q :: rest =>
    let (s1, cs) := playOne cur duration st q
    let (s2, css) := playAll cur duration s1 rest
    (s2, cs :: css)

/-- The `Stage` state relevant to `play`: the current-time cursor and the
property store. -/
structure StageState where
  curr_time : ℚ
  store : Store

/-- Method `Stage.play` (`src/core/stage.py`, lines 85-117): process every
animatable's dumped planned keyframes in two phases, then advance
`curr_time` by `duration` once, after the loop. -/
def play (st : StageState) (duration : ℚ)
    (anims : List (List PlannedKeyframe)) : StageState × List (List Commit) :=
  let (s, css) := playAll st.curr_time duration st.store anims
  ({ curr_time := st.curr_time + duration, store := s }, css)

/-! ## Mobject staging state (`Mobject` / `BasedMobject`) -/

/-- The staging-related state of a `Mobject`
(`src/core/mobject/mobject.py`).  `planned = none` models the
`_planned_keyframes` attribute being absent (the class body only annotates
it), so that accessing it raises `AttributeError`;
`in_animate` is `_in_animate_mode`, defaulted to `False` at class scope. -/
structure MobjectState where
  planned : Option (List PlannedKeyframe)
  in_animate : Bool
  deriving DecidableEq, Repr

/-- Method `Mobject.__init__` (`src/core/mobject/mobject.py`, lines 54-56): only
`self.stage` and `self.prefix` are assigned; `_planned_keyframes` is never
initialized, and `_in_animate_mode` keeps its class-scope default `False`. -/
def mobjectInit : MobjectState :=
  { planned := none, in_animate := false }

/-- Method `BasedMobject.__init__` (`src/core/mobject/based_mobject.py`,
lines 40-44): calls `Mobject.__init__` and then assigns
`self._planned_keyframes = []`. -/
def basedMobjectInit : MobjectState :=
  { mobjectInit with planned := some [] }

/-- The `animate` property (`src/core/mobject/mobject.py`, lines 155-165):
sets `_in_animate_mode = True`. -/
def animate (m : MobjectState) : MobjectState :=
  { m with in_animate := true }

/-- Method `Mobject.dump_planned_keyframes` (`src/core/mobject/mobject.py`,
lines 167-181): reads `_planned_keyframes` (raising `AttributeError` when
the attribute was never assigned), then unconditionally empties the queue
and clears `_in_animate_mode`, returning the previous queue. -/
def dump_planned_keyframes (m : MobjectState) :
    Except PyError (List PlannedKeyframe × MobjectState) :=
  match m.planned with
  | none => .error .attributeError
  | some p => .ok (p, { planned := some [], in_animate := false })

/-- The staging path of `Mobject.set_prop_value`
(`src/core/mobject/mobject.py`, lines 183-218): in animate mode it appends
a `start` entry with value `None` and an `end` entry with the given value
to `_planned_keyframes` (raising `AttributeError` when that attribute was
never assigned); in direct mode it writes the hard-cut keyframes to the
Timeline Host (an external effect) and leaves the staging state unchanged. -/
def set_prop_value (m : MobjectState) (key : Nat) (value : ℚ) :
    Except PyError MobjectState :=
  if m.in_animate then
    match m.planned with
    | none => .error .attributeError
    | some l => .ok { m with planned := some (l ++
        [{ type := PKType.start, key := key, value := none },
         { type := PKType.stop, key := key, value := some value }]) }
  else .ok m

/-! ## PropPath rendering and parsing

A `PropPath` is a list of segments (`src/core/types.py`): a plain segment
is an attribute name, a bracket segment is written `[key]` (brackets, no
quotes).  Strings are embedded as lists of characters. -/

/-- Python's `str.isdigit` on a segment key: nonempty and all digits. -/
def pyIsDigit (s : List Char) : Bool :=
  !s.isEmpty && s.all Char.isDigit

/-- Rendering of one segment inside `prop_path_to_data_path`
(`src/core/utils.py`, lines 136-148), together with the updated `prev`
flag: a bracket segment whose key is all digits renders bare (`[3]`), any
other bracket segment renders with quotes (`["Name"]`), and a plain
segment is preceded by `.` when a plain segment was already emitted.
Bracket segments leave `prev` unchanged (the loop `continue`s or falls
through without setting it). -/
def renderSeg (prev : Bool) (elem : List Char) : List Char × Bool :=
  if elem.head? = some '[' then
    let key := (elem.drop 1).dropLast
    if pyIsDigit key then ('[' :: (key ++ [']']), prev)
    else ('[' :: '"' :: (key ++ ['"', ']']), prev)
  else
    ((if prev then '.' :: elem else elem), true)

/-- The loop of `prop_path_to_data_path` threading the `prev` flag. -/
def renderAux (prev : Bool) : List (List Char) → List Char
  | [] => []
  | e :: rest => (renderSeg prev e).1 ++ renderAux (renderSeg prev e).2 rest

/-- Function `prop_path_to_data_path` (`src/core/utils.py`, lines 122-149):
renders a PropPath to the Timeline Host's channel-address string. -/
def prop_path_to_data_path (p : List (List Char)) : List Char :=
  renderAux false p

/-- Splitting helper for the parser: the longest prefix whose characters
all fail `stop`, and the remainder (which is empty or starts with a
character satisfying `stop`). -/
def splitAtChar (stop : Char → Bool) : List Char → List Char × List Char
  | [] => ([], [])
  | c :: cs =>
    if stop c then ([], c :: cs)
    else (c :: (splitAtChar stop cs).1, (splitAtChar stop cs).2)

theorem splitAtChar_snd_length (stop : Char → Bool) :
    ∀ l : List Char, ((splitAtChar stop l).2).length ≤ l.length := by
  intro l
  induction l with
  | nil => simp [splitAtChar]
  | cons c cs ih =>
    by_cases h : stop c
    · simp [splitAtChar, h]
    · simp only [splitAtChar, h, if_neg, Bool.false_eq_true, if_false]
      exact Nat.le_succ_of_le ih

/-- Modelled from the spec: `data_path_to_prop_path`, the inverse of
`prop_path_to_data_path`, is imported by `src/core/mobject/action.py`
(lines 8-13) from `..utils` but its definition is not among the source
files; the spec (section 4.1) states it reconstructs the structured path
from the channel-address string exactly.  The parser reads the rendered
format: an optional `.` separator, then either a bracketed key (quoted or
bare numeric) or a plain attribute name running up to the next `.` or `[`. -/
def parseSegs : List Char → List (List Char)
  | [] => []
  | c :: cs =>
    if c = '.' then parseSegs cs
    else if c = '[' then
      if cs.head? = some '"' then
        ('[' :: ((splitAtChar (fun x => x = '"') cs.tail).1 ++ [']'])) ::
          parseSegs (((splitAtChar (fun x => x = '"') cs.tail).2).drop 2)
      else
        ('[' :: ((splitAtChar (fun x => x = ']') cs).1 ++ [']'])) ::
          parseSegs (((splitAtChar (fun x => x = ']') cs).2).drop 1)
    else
      (c :: (splitAtChar (fun x => x = '.' || x = '[') cs).1) ::
        parseSegs ((splitAtChar (fun x => x = '.' || x = '[') cs).2)
termination_by l => l.length
decreasing_by
  · simp only [List.length_cons]
    omega
  · simp only [List.length_cons, List.length_drop]
    have h := splitAtChar_snd_length (fun x => x = '"') cs.tail
    have h2 : cs.tail.length ≤ cs.length := by
      cases cs <;> simp
    omega
  · simp only [List.length_cons, List.length_drop]
    have h := splitAtChar_snd_length (fun x => x = ']') cs
    omega
  · simp only [List.length_cons]
    have h := splitAtChar_snd_length (fun x => x = '.' || x = '[') cs
    omega

/-- Modelled from the spec: `data_path_to_prop_path` (see `parseSegs`). -/
def data_path_to_prop_path (s : List Char) : List (List Char) :=
  parseSegs s

/-- Validity of a PropPath segment, as needed for the exact round-trip:
a bracket segment is `[` ++ key ++ `]` with no quote and no closing
bracket inside the key; a plain segment is nonempty and contains neither
`.` nor `[`. -/
def validSeg (s : List Char) : Bool :=
  match s with
  | [] => false
  | c :: cs =>
    if c = '[' then
      if cs.getLast? = some ']' then
        (cs.dropLast).all (fun x => !(x = '"') && !(x = ']'))
      else false
    else (c :: cs).all (fun x => !(x = '.') && !(x = '['))

/-! ## Concrete sample data for witnesses and counterexamples -/

/-- A sample base keyframe at time `t` with value `v` and unit handles. -/
def kpAt (t v : ℚ) : Keyframe :=
  { time := t, value := v, easing := "AUTO", handle_left_type := "FREE"
    handle_right_type := "FREE", interpolation := "BEZIER", type := "KEYFRAME"
    handle_left := { time := t - 1, value := v }
    handle_right := { time := t + 1, value := v } }

/-- Base keyframe for the C3 counterexample: at time `0`, value `0`, with
a left-handle value offset of `+5`. -/
def c3base : Keyframe :=
  { time := 0, value := 0, easing := "AUTO", handle_left_type := "FREE"
    handle_right_type := "FREE", interpolation := "BEZIER", type := "KEYFRAME"
    handle_left := { time := -1, value := 5 }
    handle_right := { time := 1, value := 0 } }

/-- Host-inserted target keyframe for the C3 counterexample: at time `10`,
value `0`, with a left-handle value offset of `+7`. -/
def c3target : Keyframe :=
  { time := 10, value := 0, easing := "AUTO", handle_left_type := "AUTO"
    handle_right_type := "AUTO", interpolation := "BEZIER", type := "KEYFRAME"
    handle_left := { time := 9, value := 7 }
    handle_right := { time := 11, value := 0 } }

/-- A sample Timeline Host: `keyframe_insert` at frame `t` after the value
was set to `v` produces a keyframe at exactly that frame with
host-default (auto) handles. -/
def sampleHost : HostInsert := fun t v =>
  { time := (t : ℚ), value := v, easing := "AUTO", handle_left_type := "AUTO"
    handle_right_type := "AUTO", interpolation := "BEZIER", type := "KEYFRAME"
    handle_left := { time := (t : ℚ) - 1, value := v }
    handle_right := { time := (t : ℚ) + 1, value := v } }

end ModularMotion

namespace ModularMotion

/-! ## Helper lemmas -/

theorem takeWhile_window (bs be : ℚ) :
    ∀ (l : List Keyframe), (∀ x ∈ l, bs ≤ x.time) →
      l.Pairwise (fun a b => a.time ≤ b.time) →
      l.takeWhile (fun k => decide (k.time ≤ be)) =
        l.filter (fun k => decide (bs ≤ k.time) && decide (k.time ≤ be)) := by
  intro l
  induction l with
  | nil => intro _ _; rfl
  | cons x xs ih =>
    intro hlo hp
    rw [List.pairwise_cons] at hp
    by_cases h : x.time ≤ be
    · have hbs : bs ≤ x.time := hlo x (List.mem_cons_self x xs)
      have hrec := ih (fun y hy => hlo y (List.mem_cons_of_mem x hy)) hp.2
      simp [List.takeWhile_cons, List.filter_cons, h, hbs, hrec]
    · have hnil : xs.filter (fun k => decide (bs ≤ k.time) && decide (k.time ≤ be)) = [] := by
        rw [List.filter_eq_nil_iff]
        intro y hy
        have h1 : x.time ≤ y.time := hp.1 y hy
        have h2 : ¬ y.time ≤ be := fun hc => h (le_trans h1 hc)
        simp [h2]
      simp [List.takeWhile_cons, List.filter_cons, h, hnil]

theorem window_slice (bs be : ℚ) :
    ∀ (l : List Keyframe), l.Pairwise (fun a b => a.time ≤ b.time) →
      (l.dropWhile (fun k => decide (k.time < bs))).takeWhile
          (fun k => decide (k.time ≤ be)) =
        l.filter (fun k => decide (bs ≤ k.time) && decide (k.time ≤ be)) := by
  intro l
  induction l with
  | nil => intro _; rfl
  | cons x xs ih =>
    intro hp
    rw [List.pairwise_cons] at hp
    by_cases h : x.time < bs
    · have hns : ¬ bs ≤ x.time := not_le.mpr h
      have hrec := ih hp.2
      simp [List.dropWhile_cons, List.filter_cons, h, hns, hrec]
    · rw [List.dropWhile_cons, if_neg (by simp [h])]
      exact takeWhile_window bs be (x :: xs)
        (fun y hy => by
          rcases List.mem_cons.mp hy with h1 | h1
          · exact h1 ▸ not_lt.mp h
          · exact le_trans (not_lt.mp h) (hp.1 y h1))
        (List.pairwise_cons.mpr hp)

theorem applyActor_filter (bs be s e : ℚ) (host : HostInsert)
    (kps : List Keyframe) (hsort : kps.Pairwise (fun a b => a.time ≤ b.time)) :
    applyActor bs be s e host kps =
      (kps.filter (fun k => decide (bs ≤ k.time) && decide (k.time ≤ be))).map
        (fun k => conform_keyframe k
          (host (pyRound (interp k.time bs be s e)) k.value)
          ((e - s) / (be - bs))) := by
  unfold applyActor
  rw [window_slice bs be kps hsort]

theorem interp_linear_form (t bs be s e : ℚ) (h : be ≠ bs) :
    interp t bs be s e = bs + (t - bs) * ((e - s) / (be - bs)) + (s - bs) := by
  have h2 : be - bs ≠ 0 := sub_ne_zero.mpr h
  unfold interp
  field_simp
  ring

/-! ## Claim theorems -/

/-- C1 (counterexample): the claim says the target keyframe is inserted at
exactly the linear-map time; but with base window `[0,2]`, target window
`[0,1]` and a base point at time `1`, the exact linear map gives `1/2`
while the code inserts at `round(1/2) = 0`. -/
theorem apply_animation_exact_time_counterexample :
    Except.map (List.map Keyframe.time)
        (apply_animation 0 2 0 1 sampleHost [kpAt 1 0]) =
      Except.ok [0] ∧
    interp 1 0 2 0 1 = 1 / 2 ∧ (0 : ℚ) ≠ 1 / 2 := by
  refine ⟨?_, by norm_num [interp], by norm_num⟩
  norm_num [apply_animation, applyActor, kpAt, sampleHost, conform_keyframe,
    pyRound, interp, Except.map]

/-- C1 (amended): for a base window with `base_end > base_start` and sorted
base keyframes, `apply_animation` succeeds and inserts, for each base point
with time in `[base_start, base_end]`, a target keyframe at
`round(base_start + (t - base_start) * scale + (start - base_start))` —
Python's round-half-to-even of the exact linear map sending
`base_start -> start` and `base_end -> end`. -/
theorem apply_animation_time_map (bs be s e : ℚ) (host : HostInsert)
    (kps : List Keyframe)
    (hhost : ∀ (t : ℤ) (v : ℚ), (host t v).time = (t : ℚ))
    (hsort : kps.Pairwise (fun a b => a.time ≤ b.time))
    (hbase : bs < be) :
    apply_animation bs be s e host kps =
      Except.ok (applyActor bs be s e host kps) ∧
    (applyActor bs be s e host kps).map Keyframe.time =
      (kps.filter (fun k => decide (bs ≤ k.time) && decide (k.time ≤ be))).map
        (fun k =>
          ((pyRound (bs + (k.time - bs) * ((e - s) / (be - bs)) + (s - bs)) : ℤ) : ℚ)) := by
  have hne : be - bs ≠ 0 := sub_ne_zero.mpr (ne_of_gt hbase)
  constructor
  · simp [apply_animation, hne]
  · rw [applyActor_filter bs be s e host kps hsort, List.map_map]
    apply List.map_congr_left
    intro k _
    simp only [Function.comp]
    rw [conform_keyframe, hhost]
    rw [interp_linear_form k.time bs be s e (ne_of_gt hbase)]

/-- C1 witness: base window `[0,30]`, target window `[100,160]`, one base
point at time `15`: the retargeted keyframe lands at time `130`. -/
theorem apply_animation_time_map_witness :
    (apply_animation 0 30 100 160 sampleHost [kpAt 15 1] =
      Except.ok (applyActor 0 30 100 160 sampleHost [kpAt 15 1])) ∧
    (applyActor 0 30 100 160 sampleHost [kpAt 15 1]).map Keyframe.time = [130] := by
  have h := apply_animation_time_map 0 30 100 160 sampleHost [kpAt 15 1]
    (fun t v => rfl) (by simp) (by norm_num)
  refine ⟨h.1, h.2.trans ?_⟩
  norm_num [kpAt, pyRound]

/-- C2: the retargeted keyframe copies easing, interpolation, keyframe
type, and the left/right handle-type tags verbatim from the base point,
and each handle's time offset is the base offset times
`scale = (end - start) / (base_end - base_start)`; every keyframe produced
by `apply_animation` is such a conformed copy of an in-window base point. -/
theorem conform_keyframe_tags_and_handle_scale :
    (∀ (base target : Keyframe) (scale : ℚ),
      (conform_keyframe base target scale).easing = base.easing ∧
      (conform_keyframe base target scale).interpolation = base.interpolation ∧
      (conform_keyframe base target scale).type = base.type ∧
      (conform_keyframe base target scale).handle_left_type =
        base.handle_left_type ∧
      (conform_keyframe base target scale).handle_right_type =
        base.handle_right_type ∧
      (conform_keyframe base target scale).handle_left.time -
          (conform_keyframe base target scale).time =
        (base.handle_left.time - base.time) * scale ∧
      (conform_keyframe base target scale).handle_right.time -
          (conform_keyframe base target scale).time =
        (base.handle_right.time - base.time) * scale) ∧
    (∀ (bs be s e : ℚ) (host : HostInsert) (kps : List Keyframe),
      kps.Pairwise (fun a b => a.time ≤ b.time) → bs < be →
      apply_animation bs be s e host kps = Except.ok
        ((kps.filter (fun k => decide (bs ≤ k.time) && decide (k.time ≤ be))).map
          (fun k => conform_keyframe k
            (host (pyRound (interp k.time bs be s e)) k.value)
            ((e - s) / (be - bs))))) := by
  constructor
  · intro base target scale
    refine ⟨rfl, rfl, rfl, rfl, rfl, ?_, ?_⟩ <;> simp [conform_keyframe]
  · intro bs be s e host kps hsort hbase
    have hne : be - bs ≠ 0 := sub_ne_zero.mpr (ne_of_gt hbase)
    simp only [apply_animation, hne, if_false, if_neg hne]
    rw [applyActor_filter bs be s e host kps hsort]

/-- C2 witness: base point at time `10` with right-handle time offset `+3`
and scale `2`: the conformed right-handle time offset is `+6`. -/
theorem conform_keyframe_tags_witness :
    ((conform_keyframe (kpAt 10 0) (kpAt 20 0) 2).handle_right.time -
        (conform_keyframe (kpAt 10 0) (kpAt 20 0) 2).time =
      ((kpAt 10 0).handle_right.time - (kpAt 10 0).time) * 2) ∧
    ((kpAt 10 0).handle_right.time - (kpAt 10 0).time) * 2 = 2 ∧
    apply_animation 0 30 100 160 sampleHost [kpAt 15 1] = Except.ok
      (([kpAt 15 1].filter
          (fun k => decide ((0 : ℚ) ≤ k.time) && decide (k.time ≤ 30))).map
        (fun k => conform_keyframe k
          (sampleHost (pyRound (interp k.time 0 30 100 160)) k.value)
          ((160 - 100) / (30 - 0)))) := by
  refine ⟨(conform_keyframe_tags_and_handle_scale.1 (kpAt 10 0) (kpAt 20 0) 2).2.2.2.2.2.2,
    by norm_num [kpAt],
    conform_keyframe_tags_and_handle_scale.2 0 30 100 160 sampleHost [kpAt 15 1]
      (by simp) (by norm_num)⟩

/-- C3 (counterexample): the claim says the handle value offsets are copied
from the base keyframe; but `_conform_keyframe` never writes `handle[1]`,
so a base left-handle value offset of `5` is not copied: the target keeps
its own pre-conform left-handle value offset `7`. -/
theorem conform_keyframe_value_copy_counterexample :
    (conform_keyframe c3base c3target 1).handle_left.value -
        (conform_keyframe c3base c3target 1).value = 7 ∧
    c3base.handle_left.value - c3base.value = 5 ∧ (7 : ℚ) ≠ 5 := by
  refine ⟨?_, ?_, by norm_num⟩ <;>
    norm_num [conform_keyframe, c3base, c3target]

/-- C3 (amended): `_conform_keyframe` leaves the value components of both
handles (and the keyframe's own value) exactly as the host-inserted target
keyframe had them; it does not copy the base keyframe's handle value
offsets. -/
theorem conform_keyframe_leaves_handle_values (base target : Keyframe)
    (scale : ℚ) :
    (conform_keyframe base target scale).handle_left.value =
      target.handle_left.value ∧
    (conform_keyframe base target scale).handle_right.value =
      target.handle_right.value ∧
    (conform_keyframe base target scale).value = target.value :=
  ⟨rfl, rfl, rfl⟩

/-- C4 (counterexample): the claim says `apply_animation(start=10, end=10)`
raises `DegenerateWindowError` when the base window is non-degenerate; but
no such error class exists in the repository and the call returns
normally, inserting the in-window keyframe at time `10`. -/
theorem apply_animation_degenerate_counterexample :
    apply_animation 0 30 10 10 sampleHost [kpAt 15 1] =
      Except.ok [conform_keyframe (kpAt 15 1) (sampleHost 10 1) 0] ∧
    Except.map (List.map Keyframe.time)
        (apply_animation 0 30 10 10 sampleHost [kpAt 15 1]) =
      Except.ok [10] := by
  constructor <;>
    norm_num [apply_animation, applyActor, kpAt, sampleHost, conform_keyframe,
      pyRound, interp, Except.map]

/-- C4 (amended): `apply_animation` guards nothing: a zero-width base
window raises Python's `ZeroDivisionError` (there is no
`DegenerateWindowError` in the code base), and a degenerate target window
(`start == end`, i.e. `scale = 0`) raises nothing at all — every processed
keyframe is inserted at the single time `round(start)`. -/
theorem apply_animation_degenerate_behavior :
    (∀ (bs s e : ℚ) (host : HostInsert) (kps : List Keyframe),
      apply_animation bs bs s e host kps =
        Except.error PyError.zeroDivisionError) ∧
    (∀ (bs be s : ℚ) (host : HostInsert) (kps : List Keyframe), bs ≠ be →
      apply_animation bs be s s host kps =
        Except.ok (applyActor bs be s s host kps)) ∧
    (∀ (bs be s : ℚ) (host : HostInsert) (kps : List Keyframe),
      (∀ (t : ℤ) (v : ℚ), (host t v).time = (t : ℚ)) →
      ∀ k ∈ applyActor bs be s s host kps, k.time = ((pyRound s : ℤ) : ℚ)) := by
  refine ⟨?_, ?_, ?_⟩
  · intro bs s e host kps
    simp [apply_animation]
  · intro bs be s host kps h
    have hne : be - bs ≠ 0 := sub_ne_zero.mpr (Ne.symm h)
    simp [apply_animation, hne]
  · intro bs be s host kps hhost k hk
    unfold applyActor at hk
    rcases List.mem_map.mp hk with ⟨k0, _, hk0⟩
    have : interp k0.time bs be s s = s := by
      unfold interp; ring_nf
    rw [← hk0]
    show (conform_keyframe k0 _ _).time = _
    rw [conform_keyframe]
    simp only []
    rw [hhost]
    rw [this]

/-- C4 witness: concrete instances — a zero-width base window raises
`ZeroDivisionError`; `apply(action, start=10, end=10)` with base window
`[0,30]` returns normally and puts the retargeted keyframe at `10`. -/
theorem apply_animation_degenerate_witness :
    apply_animation 5 5 0 1 sampleHost [] =
      Except.error PyError.zeroDivisionError ∧
    apply_animation 0 30 10 10 sampleHost [kpAt 15 1] =
      Except.ok (applyActor 0 30 10 10 sampleHost [kpAt 15 1]) ∧
    (conform_keyframe (kpAt 15 1) (sampleHost 10 1) 0).time =
      ((pyRound 10 : ℤ) : ℚ) := by
  refine ⟨apply_animation_degenerate_behavior.1 5 0 1 sampleHost [],
    apply_animation_degenerate_behavior.2.1 0 30 10 sampleHost [kpAt 15 1]
      (by norm_num), ?_⟩
  apply apply_animation_degenerate_behavior.2.2 0 30 10 sampleHost [kpAt 15 1]
    (fun t v => rfl)
  norm_num [applyActor, kpAt, sampleHost, interp, pyRound, conform_keyframe]

/-- C9: `dump_planned_keyframes` returns the staged queue, empties it, and
unconditionally leaves animate mode (even if the queue was empty); calling
it twice in a row returns `[]` the second time with the Mobject out of
animate mode. -/
theorem dump_planned_keyframes_flush (m : MobjectState)
    (p : List PlannedKeyframe) (h : m.planned = some p) :
    dump_planned_keyframes m =
      Except.ok (p, { planned := some [], in_animate := false }) ∧
    dump_planned_keyframes
        (MobjectState.mk (some []) false) =
      Except.ok ([], { planned := some [], in_animate := false }) := by
  constructor
  · simp [dump_planned_keyframes, h]
  · rfl

/-- C9 witness: a Mobject in animate mode with one staged keyframe. -/
theorem dump_planned_keyframes_flush_witness :
    dump_planned_keyframes
        (MobjectState.mk (some [PlannedKeyframe.mk PKType.start 0 none]) true) =
      Except.ok ([PlannedKeyframe.mk PKType.start 0 none],
        { planned := some [], in_animate := false }) ∧
    dump_planned_keyframes (MobjectState.mk (some []) false) =
      Except.ok ([], { planned := some [], in_animate := false }) :=
  dump_planned_keyframes_flush
    (MobjectState.mk (some [PlannedKeyframe.mk PKType.start 0 none]) true)
    [PlannedKeyframe.mk PKType.start 0 none] rfl

/-- C10: `Mobject.__init__` never initializes `_planned_keyframes` (the
class body only annotates it), so a directly constructed `Mobject` raises
`AttributeError` from `dump_planned_keyframes`, and from `set_prop_value`
after entering animate mode; only `BasedMobject.__init__` assigns
`self._planned_keyframes = []`, after which staging works. -/
theorem mobject_init_missing_queue (key : Nat) (v : ℚ) :
    mobjectInit.planned = none ∧
    dump_planned_keyframes mobjectInit = Except.error PyError.attributeError ∧
    set_prop_value (animate mobjectInit) key v =
      Except.error PyError.attributeError ∧
    basedMobjectInit.planned = some [] ∧
    set_prop_value (animate basedMobjectInit) key v = Except.ok
      { planned := some
          [{ type := PKType.start, key := key, value := none },
           { type := PKType.stop, key := key, value := some v }]
        in_animate := true } := by
  refine ⟨rfl, rfl, rfl, rfl, ?_⟩
  simp [set_prop_value, animate, basedMobjectInit, mobjectInit]

/-! ## Segmentation lemmas -/

theorem isActorScan_iff (s e : ℚ) :
    ∀ (l : List ℚ) (cnt : Nat), cnt ≤ 1 → l.Pairwise (· ≤ ·) →
      (isActorScan s e l cnt = true ↔
        2 ≤ cnt + (l.filter (fun t => decide (s ≤ t) && decide (t ≤ e))).length) := by
  intro l
  induction l with
  | nil =>
    intro cnt hcnt _
    simp only [isActorScan, List.filter_nil, List.length_nil, Nat.add_zero]
    constructor
    · intro h; exact absurd h (by simp)
    · omega
  | cons t rest ih =>
    intro cnt hcnt hp
    rw [List.pairwise_cons] at hp
    by_cases h1 : t < s
    · have hns : ¬ s ≤ t := not_le.mpr h1
      rw [isActorScan]
      simp only [h1, if_true, List.filter_cons, hns, decide_eq_true_eq]
      simpa using ih cnt hcnt hp.2
    · by_cases h2 : e < t
      · have hne : ¬ t ≤ e := not_le.mpr h2
        rw [isActorScan]
        simp only [h1, h2, if_true, if_false, List.filter_cons]
        have hnil : rest.filter (fun t => decide (s ≤ t) && decide (t ≤ e)) = [] := by
          rw [List.filter_eq_nil_iff]
          intro y hy
          have : ¬ y ≤ e := fun hc => hne (le_trans (hp.1 y hy) hc)
          simp [this]
        simp only [hne, decide_eq_true_eq]
        simp [hnil]
        omega
      · have hse : s ≤ t := not_lt.mp h1
        have hte : t ≤ e := not_lt.mp h2
        rw [isActorScan]
        simp only [h1, h2, if_false, List.filter_cons, hse, hte, decide_eq_true_eq]
        by_cases h3 : 2 ≤ cnt + 1
        · simp only [h3, if_true]
          simp [hse, hte]
          omega
        · simp only [h3, if_false]
          have hc1 : cnt + 1 ≤ 1 := by omega
          have := ih (cnt + 1) hc1 hp.2
          simp [hse, hte, this]
          omega

/-- C6: for every window produced by `generate_actions` and every sorted
base channel, the channel is listed as an actor of that window iff at
least 2 of its keyframe times lie in `[start, stop]` inclusive. -/
theorem generate_actions_actor_rule (W : ℚ) (channels : List (List ℚ))
    (acts : List ActionWindow)
    (hgen : generate_actions W channels = Except.ok acts)
    (a : ActionWindow) (ha : a ∈ acts) (c : List ℚ)
    (hsort : c.Pairwise (· ≤ ·)) :
    c ∈ a.actors ↔ c ∈ channels ∧
      2 ≤ (c.filter (fun t => decide (a.start ≤ t) && decide (t ≤ a.stop))).length := by
  unfold generate_actions at hgen
  by_cases h1 : channels.any List.isEmpty
  · simp [h1] at hgen
  · by_cases h2 : W = 0
    · simp [h1, h2] at hgen
    · simp only [h1, h2, Bool.false_eq_true, if_false, Except.ok.injEq] at hgen
      rw [← hgen] at ha
      rcases List.mem_map.mp ha with ⟨i, _, rfl⟩
      simp only [List.mem_filter]
      constructor
      · rintro ⟨hm, hact⟩
        refine ⟨hm, ?_⟩
        have := (isActorScan_iff _ _ c 0 (by omega) hsort).mp hact
        simpa using this
      · rintro ⟨hm, hcount⟩
        refine ⟨hm, ?_⟩
        apply (isActorScan_iff _ _ c 0 (by omega) hsort).mpr
        simpa using hcount

/-- C6 witness: with channels `[5,40]`, `[10,20]`, `[0,30]` and width 30,
`generate_actions` emits the single window `[0,30]`; the channel `[5,40]`
(one in-window point) is not an actor while `[10,20]` (two in-window
points) is. -/
theorem generate_actions_actor_rule_witness :
    (¬ [(5 : ℚ), 40] ∈ (ActionWindow.mk 0 30 [[10, 20], [0, 30]]).actors) ∧
    [(10 : ℚ), 20] ∈ (ActionWindow.mk 0 30 [[10, 20], [0, 30]]).actors := by
  have hgen : generate_actions 30 [[5, 40], [10, 20], [0, 30]] =
      Except.ok [ActionWindow.mk 0 30 [[10, 20], [0, 30]]] := by
    norm_num [generate_actions, is_an_actor, isActorScan, List.range_succ]
  have hmem : ActionWindow.mk 0 30 [[10, 20], [0, 30]] ∈
      [ActionWindow.mk 0 30 [[10, 20], [0, 30]]] := List.mem_singleton.mpr rfl
  constructor
  · rw [generate_actions_actor_rule 30 [[5, 40], [10, 20], [0, 30]] _ hgen
      (ActionWindow.mk 0 30 [[10, 20], [0, 30]]) hmem [(5 : ℚ), 40]
      (by norm_num)]
    intro hcl
    have := hcl.2
    norm_num at this
  · rw [generate_actions_actor_rule 30 [[5, 40], [10, 20], [0, 30]] _ hgen
      (ActionWindow.mk 0 30 [[10, 20], [0, 30]]) hmem [(10 : ℚ), 20]
      (by norm_num)]
    norm_num

/-! ## Fold characterizations for `generate_actions` window bounds -/

theorem foldl_min_head :
    ∀ (channels : List (List ℚ)) (init m : ℚ), m ≤ init →
      (∀ c ∈ channels, m ≤ c.headD 0) →
      (m = init ∨ ∃ c ∈ channels, c.headD 0 = m) →
      channels.foldl (fun acc c => if c.headD 0 < acc then c.headD 0 else acc)
        init = m := by
  intro channels
  induction channels with
  | nil =>
    intro init m h1 _ h3
    rcases h3 with h | ⟨c, hc, _⟩
    · simpa using h.symm
    · exact absurd hc (List.not_mem_nil c)
  | cons c cs ih =>
    intro init m h1 h2 h3
    rw [List.foldl_cons]
    have hmc : m ≤ c.headD 0 := h2 c (List.mem_cons_self c cs)
    have h2a : ∀ x ∈ cs, m ≤ x.headD 0 :=
      fun x hx => h2 x (List.mem_cons_of_mem c hx)
    by_cases hlt : c.headD 0 < init
    · rw [if_pos hlt]
      apply ih (c.headD 0) m hmc h2a
      rcases h3 with h | ⟨c0, hc0, hval⟩
      · subst h
        exact absurd hlt (not_lt.mpr hmc)
      · rcases List.mem_cons.mp hc0 with rfl | hmem
        · exact Or.inl hval.symm
        · exact Or.inr ⟨c0, hmem, hval⟩
    · rw [if_neg hlt]
      apply ih init m h1 h2a
      rcases h3 with h | ⟨c0, hc0, hval⟩
      · exact Or.inl h
      · rcases List.mem_cons.mp hc0 with rfl | hmem
        · left
          exact le_antisymm h1 (hval ▸ not_lt.mp hlt)
        · exact Or.inr ⟨c0, hmem, hval⟩

theorem foldl_max_last :
    ∀ (channels : List (List ℚ)) (init m : ℚ), init ≤ m →
      (∀ c ∈ channels, c.getLastD 0 ≤ m) →
      (m = init ∨ ∃ c ∈ channels, c.getLastD 0 = m) →
      channels.foldl (fun acc c => if acc < c.getLastD 0 then c.getLastD 0 else acc)
        init = m := by
  intro channels
  induction channels with
  | nil =>
    intro init m h1 _ h3
    rcases h3 with h | ⟨c, hc, _⟩
    · simpa using h.symm
    · exact absurd hc (List.not_mem_nil c)
  | cons c cs ih =>
    intro init m h1 h2 h3
    rw [List.foldl_cons]
    have hmc : c.getLastD 0 ≤ m := h2 c (List.mem_cons_self c cs)
    have h2a : ∀ x ∈ cs, x.getLastD 0 ≤ m :=
      fun x hx => h2 x (List.mem_cons_of_mem c hx)
    by_cases hlt : init < c.getLastD 0
    · rw [if_pos hlt]
      apply ih (c.getLastD 0) m hmc h2a
      rcases h3 with h | ⟨c0, hc0, hval⟩
      · subst h
        exact absurd hlt (not_lt.mpr hmc)
      · rcases List.mem_cons.mp hc0 with rfl | hmem
        · exact Or.inl hval.symm
        · exact Or.inr ⟨c0, hmem, hval⟩
    · rw [if_neg hlt]
      apply ih init m h1 h2a
      rcases h3 with h | ⟨c0, hc0, hval⟩
      · exact Or.inl h
      · rcases List.mem_cons.mp hc0 with rfl | hmem
        · left
          exact le_antisymm (hval ▸ not_lt.mp hlt) h1
        · exact Or.inr ⟨c0, hmem, hval⟩

/-- C7: over nonempty channels whose first and last keyframe times are
`first_time` and `last_time` (within the sentinel bounds), and a positive
width `W`, `generate_actions` emits exactly
`(floor ((last_time - first_time) / W)).toNat` actions, the `i`-th
covering the window `[first_time + W*i, first_time + W*i + W]` — with
every window emitted whether or not it has actors; when the floor is
non-positive, no actions are produced. -/
theorem generate_actions_window_count (W : ℚ) (channels : List (List ℚ))
    (first_time last_time : ℚ)
    (hW : 0 < W)
    (hnonempty : ∀ c ∈ channels, c ≠ [])
    (hbounds : ∀ c ∈ channels, ∀ t ∈ c, -9999999 < t ∧ t < 9999999)
    (hfirst_le : ∀ c ∈ channels, first_time ≤ c.headD 0)
    (hfirst_mem : ∃ c ∈ channels, c.headD 0 = first_time)
    (hlast_ge : ∀ c ∈ channels, c.getLastD 0 ≤ last_time)
    (hlast_mem : ∃ c ∈ channels, c.getLastD 0 = last_time) :
    generate_actions W channels = Except.ok
      ((List.range (⌊(last_time - first_time) / W⌋).toNat).map (fun i =>
        { start := first_time + W * i
          stop := first_time + W * i + W
          actors := channels.filter (fun c =>
            is_an_actor (first_time + W * i) (first_time + W * i + W) c) })) ∧
    (⌊(last_time - first_time) / W⌋ ≤ 0 →
      generate_actions W channels = Except.ok []) := by
  have hany : channels.any List.isEmpty = false := by
    rw [List.any_eq_false]
    intro c hc
    simpa using hnonempty c hc
  have hW0 : ¬ W = 0 := ne_of_gt hW
  have hhead_mem : ∀ c ∈ channels, c.headD 0 ∈ c := by
    intro c hc
    cases c with
    | nil => exact absurd rfl (hnonempty [] hc)
    | cons x xs => simp
  have hlast_mem2 : ∀ c ∈ channels, c.getLastD 0 ∈ c := by
    intro c hc
    cases c with
    | nil => exact absurd rfl (hnonempty [] hc)
    | cons x xs =>
      have : (x :: xs).getLastD 0 = (x :: xs).getLast (by simp) := by
        rw [List.getLastD_eq_getLast?, List.getLast?_eq_getLast (x :: xs) (by simp)]
        rfl
      rw [this]
      exact List.getLast_mem (by simp)
  have hfmax : first_time ≤ 9999999 := by
    rcases hfirst_mem with ⟨c, hc, hval⟩
    have := (hbounds c hc (c.headD 0) (hhead_mem c hc)).2
    rw [hval] at this
    linarith
  have hlmin : -9999999 ≤ last_time := by
    rcases hlast_mem with ⟨c, hc, hval⟩
    have := (hbounds c hc (c.getLastD 0) (hlast_mem2 c hc)).1
    rw [hval] at this
    linarith
  have hfold1 : channels.foldl
      (fun acc c => if c.headD 0 < acc then c.headD 0 else acc) 9999999 =
      first_time := by
    apply foldl_min_head channels 9999999 first_time hfmax hfirst_le
    exact Or.inr hfirst_mem
  have hfold2 : channels.foldl
      (fun acc c => if acc < c.getLastD 0 then c.getLastD 0 else acc)
      (-9999999) = last_time := by
    apply foldl_max_last channels (-9999999) last_time hlmin hlast_ge
    exact Or.inr hlast_mem
  constructor
  · unfold generate_actions
    rw [hany]
    simp only [Bool.false_eq_true, if_false, hW0]
    rw [hfold1, hfold2]
  · intro hfloor
    unfold generate_actions
    rw [hany]
    simp only [Bool.false_eq_true, if_false, hW0]
    rw [hfold1, hfold2]
    have hz : (⌊(last_time - first_time) / W⌋).toNat = 0 :=
      Int.toNat_of_nonpos hfloor
    rw [hz]
    rfl

/-- C7 witness: one channel spanning `[0, 95]` with width 30 yields
exactly 3 actions covering `[0,30]`, `[30,60]`, `[60,90]` — all emitted
even though none of them has an actor. -/
theorem generate_actions_window_count_witness :
    generate_actions 30 [[0, 95]] = Except.ok
      [ActionWindow.mk 0 30 [], ActionWindow.mk 30 60 [], ActionWindow.mk 60 90 []] ∧
    (⌊((95 : ℚ) - 0) / 30⌋).toNat = 3 := by
  have h := (generate_actions_window_count 30 [[0, 95]] 0 95
    (by norm_num) (by simp) (by norm_num) (by norm_num)
    ⟨[0, 95], by simp, by norm_num⟩ (by norm_num)
    ⟨[0, 95], by simp, by norm_num⟩).1
  have hint : ⌊((95 : ℚ) - 0) / 30⌋ = 3 := by norm_num
  have hfl : (⌊((95 : ℚ) - 0) / 30⌋).toNat = 3 := by rw [hint]; rfl
  refine ⟨h.trans ?_, hfl⟩
  rw [hfl]
  norm_num [is_an_actor, isActorScan, List.range_succ]

/-! ## Two-phase commit lemmas -/

theorem runEntries_frame_kind (frame : ℚ) :
    ∀ (l : List PlannedKeyframe) (st : Store) (c : Commit),
      c ∈ (runEntries frame st l).2 →
      c.frame = frame ∧ ∃ k ∈ l, c.kind = k.type := by
  intro l
  induction l with
  | nil =>
    intro st c hc
    simp [runEntries] at hc
  | cons k rest ih =>
    intro st c hc
    simp only [runEntries] at hc
    rcases List.mem_cons.mp hc with rfl | hmem
    · exact ⟨rfl, k, List.mem_cons_self k rest, rfl⟩
    · rcases ih _ c hmem with ⟨hf, k0, hk0, hkind⟩
      exact ⟨hf, k0, List.mem_cons_of_mem k hk0, hkind⟩

theorem runEntries_all_none (frame : ℚ) :
    ∀ (l : List PlannedKeyframe) (st : Store),
      (∀ k ∈ l, k.value = none) →
      runEntries frame st l =
        (st, l.map (fun k => Commit.mk k.type k.key frame (st k.key))) := by
  intro l
  induction l with
  | nil => intro st _; rfl
  | cons k rest ih =>
    intro st h
    have hk : k.value = none := h k (List.mem_cons_self k rest)
    have hrest := ih st (fun x hx => h x (List.mem_cons_of_mem k hx))
    simp only [runEntries, hk, hrest, List.map_cons]

theorem runEntries_all_some_commits (frame : ℚ) :
    ∀ (l : List PlannedKeyframe) (st : Store),
      (∀ k ∈ l, k.value ≠ none) →
      (runEntries frame st l).2 =
        l.map (fun k => Commit.mk k.type k.key frame (k.value.getD 0)) := by
  intro l
  induction l with
  | nil => intro st _; rfl
  | cons k rest ih =>
    intro st h
    have hk : k.value ≠ none := h k (List.mem_cons_self k rest)
    cases hv : k.value with
    | none => exact absurd hv hk
    | some v =>
      have hrest := ih (setValue st k.key v)
        (fun x hx => h x (List.mem_cons_of_mem k hx))
      simp only [runEntries, hv, hrest, List.map_cons, Option.getD_some]
      have hsv : setValue st k.key v k.key = v := by simp [setValue]
      rw [hsv]

theorem playOne_trace (cur d : ℚ) (σ : Store) (q : List PlannedKeyframe)
    (h : ∀ k ∈ q, (k.type = PKType.start → k.value = none) ∧
                  (k.type = PKType.stop → k.value ≠ none)) :
    (playOne cur d σ q).2 =
      (q.filter (fun k => k.type = PKType.start)).map
        (fun k => Commit.mk PKType.start k.key cur (σ k.key)) ++
      (q.filter (fun k => k.type = PKType.stop)).map
        (fun k => Commit.mk PKType.stop k.key (cur + d) (k.value.getD 0)) := by
  have h1 : ∀ k ∈ q.filter (fun k => k.type = PKType.start), k.value = none := by
    intro k hk
    rw [List.mem_filter] at hk
    exact (h k hk.1).1 (by simpa using hk.2)
  have h2 : ∀ k ∈ q.filter (fun k => k.type = PKType.stop), k.value ≠ none := by
    intro k hk
    rw [List.mem_filter] at hk
    exact (h k hk.1).2 (by simpa using hk.2)
  have e1 := runEntries_all_none cur (q.filter (fun k => k.type = PKType.start)) σ h1
  have e2 := runEntries_all_some_commits (cur + d)
    (q.filter (fun k => k.type = PKType.stop)) σ h2
  simp only [playOne, e1]
  rw [e2]
  congr 1
  · apply List.map_congr_left
    intro k hk
    rw [List.mem_filter] at hk
    have : k.type = PKType.start := by simpa using hk.2
    rw [this]
  · apply List.map_congr_left
    intro k hk
    rw [List.mem_filter] at hk
    have : k.type = PKType.stop := by simpa using hk.2
    rw [this]

theorem playOne_phase_structure (cur d : ℚ) (σ : Store)
    (q : List PlannedKeyframe) :
    ((playOne cur d σ q).2 =
      (playOne cur d σ q).2.filter (fun c => decide (c.kind = PKType.start)) ++
      (playOne cur d σ q).2.filter (fun c => decide (c.kind = PKType.stop))) ∧
    ∀ c ∈ (playOne cur d σ q).2,
      (c.kind = PKType.start → c.frame = cur) ∧
      (c.kind = PKType.stop → c.frame = cur + d) := by
  have hs1 : ∀ c ∈ (runEntries cur σ
      (q.filter (fun k => k.type = PKType.start))).2,
      c.kind = PKType.start ∧ c.frame = cur := by
    intro c hc
    rcases runEntries_frame_kind cur _ σ c hc with ⟨hf, k, hk, hkind⟩
    rw [List.mem_filter] at hk
    exact ⟨by rw [hkind]; simpa using hk.2, hf⟩
  have hs2 : ∀ c ∈ (runEntries (cur + d)
      (runEntries cur σ (q.filter (fun k => k.type = PKType.start))).1
      (q.filter (fun k => k.type = PKType.stop))).2,
      c.kind = PKType.stop ∧ c.frame = cur + d := by
    intro c hc
    rcases runEntries_frame_kind (cur + d) _ _ c hc with ⟨hf, k, hk, hkind⟩
    rw [List.mem_filter] at hk
    exact ⟨by rw [hkind]; simpa using hk.2, hf⟩
  have hsplit : (playOne cur d σ q).2 =
      (runEntries cur σ (q.filter (fun k => k.type = PKType.start))).2 ++
      (runEntries (cur + d)
        (runEntries cur σ (q.filter (fun k => k.type = PKType.start))).1
        (q.filter (fun k => k.type = PKType.stop))).2 := rfl
  constructor
  · rw [hsplit, List.filter_append, List.filter_append]
    have f11 : (runEntries cur σ
        (q.filter (fun k => k.type = PKType.start))).2.filter
        (fun c => decide (c.kind = PKType.start)) =
        (runEntries cur σ (q.filter (fun k => k.type = PKType.start))).2 := by
      rw [List.filter_eq_self]
      intro c hc
      simp [(hs1 c hc).1]
    have f21 : (runEntries (cur + d)
        (runEntries cur σ (q.filter (fun k => k.type = PKType.start))).1
        (q.filter (fun k => k.type = PKType.stop))).2.filter
        (fun c => decide (c.kind = PKType.start)) = [] := by
      rw [List.filter_eq_nil_iff]
      intro c hc
      simp [(hs2 c hc).1]
    have f12 : (runEntries cur σ
        (q.filter (fun k => k.type = PKType.start))).2.filter
        (fun c => decide (c.kind = PKType.stop)) = [] := by
      rw [List.filter_eq_nil_iff]
      intro c hc
      simp [(hs1 c hc).1]
    have f22 : (runEntries (cur + d)
        (runEntries cur σ (q.filter (fun k => k.type = PKType.start))).1
        (q.filter (fun k => k.type = PKType.stop))).2.filter
        (fun c => decide (c.kind = PKType.stop)) =
        (runEntries (cur + d)
          (runEntries cur σ (q.filter (fun k => k.type = PKType.start))).1
          (q.filter (fun k => k.type = PKType.stop))).2 := by
      rw [List.filter_eq_self]
      intro c hc
      simp [(hs2 c hc).1]
    rw [f11, f21, f12, f22, List.append_nil, List.nil_append]
  · intro c hc
    rw [hsplit] at hc
    rcases List.mem_append.mp hc with hm | hm
    · rcases hs1 c hm with ⟨hk, hf⟩
      exact ⟨fun _ => hf, fun hcon => by rw [hk] at hcon; cases hcon⟩
    · rcases hs2 c hm with ⟨hk, hf⟩
      exact ⟨fun hcon => (by rw [hk] at hcon; cases hcon), fun _ => hf⟩

theorem playAll_length (cur d : ℚ) :
    ∀ (anims : List (List PlannedKeyframe)) (st : Store),
      (playAll cur d st anims).2.length = anims.length := by
  intro anims
  induction anims with
  | nil => intro st; rfl
  | cons q rest ih =>
    intro st
    simp only [playAll, List.length_cons]
    rw [ih]

theorem playAll_mem (cur d : ℚ) :
    ∀ (anims : List (List PlannedKeyframe)) (st : Store)
      (seg : List Commit), seg ∈ (playAll cur d st anims).2 →
      ∃ (σ : Store) (q : List PlannedKeyframe),
        q ∈ anims ∧ seg = (playOne cur d σ q).2 := by
  intro anims
  induction anims with
  | nil =>
    intro st seg hseg
    simp [playAll] at hseg
  | cons q rest ih =>
    intro st seg hseg
    simp only [playAll] at hseg
    rcases List.mem_cons.mp hseg with rfl | hmem
    · exact ⟨st, q, List.mem_cons_self q rest, rfl⟩
    · rcases ih _ seg hmem with ⟨σ, q0, hq0, hval⟩
      exact ⟨σ, q0, List.mem_cons_of_mem q hq0, hval⟩

/-- C8: in `Stage.play`, each animatable's dumped planned keyframes are
committed in two phases — its commit trace is exactly its start-commits
followed by its end-commits, start entries keyed at the current time and
end entries at current time plus duration, regardless of the interleaved
staged order — and the current time then advances by exactly the
duration; moreover, when the start entries carry no value (capture mode)
and the end entries carry values, the full trace is: every start entry
keyed at the animatable's entry store value (the pre-change snapshot),
then every end entry keyed at its assigned value. -/
theorem stage_play_two_phase :
    (∀ (st : StageState) (d : ℚ) (anims : List (List PlannedKeyframe)),
      (play st d anims).1.curr_time = st.curr_time + d ∧
      (play st d anims).2.length = anims.length ∧
      ∀ seg ∈ (play st d anims).2,
        (seg = seg.filter (fun c => decide (c.kind = PKType.start)) ++
               seg.filter (fun c => decide (c.kind = PKType.stop))) ∧
        ∀ c ∈ seg, (c.kind = PKType.start → c.frame = st.curr_time) ∧
                   (c.kind = PKType.stop → c.frame = st.curr_time + d)) ∧
    (∀ (cur d : ℚ) (σ : Store) (q : List PlannedKeyframe),
      (∀ k ∈ q, (k.type = PKType.start → k.value = none) ∧
                (k.type = PKType.stop → k.value ≠ none)) →
      (playOne cur d σ q).2 =
        (q.filter (fun k => k.type = PKType.start)).map
          (fun k => Commit.mk PKType.start k.key cur (σ k.key)) ++
        (q.filter (fun k => k.type = PKType.stop)).map
          (fun k => Commit.mk PKType.stop k.key (cur + d) (k.value.getD 0))) := by
  constructor
  · intro st d anims
    refine ⟨rfl, playAll_length st.curr_time d anims st.store, ?_⟩
    intro seg hseg
    have : seg ∈ (playAll st.curr_time d st.store anims).2 := hseg
    rcases playAll_mem st.curr_time d anims st.store seg this with ⟨σ, q, _, rfl⟩
    exact playOne_phase_structure st.curr_time d σ q
  · exact playOne_trace

/-- C8 witness: the staged entries
`[{start,A,None},{end,A,5},{start,B,None},{end,B,9}]` are committed as
both starts (capturing the pre-change store value 0) strictly before both
ends, at frames 0 and 24 respectively, and the time advances to 24. -/
theorem stage_play_two_phase_witness :
    (play (StageState.mk 0 (fun _ => 0)) 24
        [[PlannedKeyframe.mk PKType.start 0 none,
          PlannedKeyframe.mk PKType.stop 0 (some 5),
          PlannedKeyframe.mk PKType.start 1 none,
          PlannedKeyframe.mk PKType.stop 1 (some 9)]]).1.curr_time = 0 + 24 ∧
    (playOne 0 24 (fun _ => 0)
        [PlannedKeyframe.mk PKType.start 0 none,
         PlannedKeyframe.mk PKType.stop 0 (some 5),
         PlannedKeyframe.mk PKType.start 1 none,
         PlannedKeyframe.mk PKType.stop 1 (some 9)]).2 =
      [Commit.mk PKType.start 0 0 0, Commit.mk PKType.start 1 0 0,
       Commit.mk PKType.stop 0 24 5, Commit.mk PKType.stop 1 24 9] := by
  refine ⟨(stage_play_two_phase.1 (StageState.mk 0 (fun _ => 0)) 24
    [[PlannedKeyframe.mk PKType.start 0 none,
      PlannedKeyframe.mk PKType.stop 0 (some 5),
      PlannedKeyframe.mk PKType.start 1 none,
      PlannedKeyframe.mk PKType.stop 1 (some 9)]]).1, ?_⟩
  have h := stage_play_two_phase.2 0 24 (fun _ => 0)
    [PlannedKeyframe.mk PKType.start 0 none,
     PlannedKeyframe.mk PKType.stop 0 (some 5),
     PlannedKeyframe.mk PKType.start 1 none,
     PlannedKeyframe.mk PKType.stop 1 (some 9)]
    (by intro k hk; fin_cases hk <;> simp)
  rw [h]
  simp [List.filter_cons]

/-! ## PropPath round-trip lemmas -/

theorem splitAtChar_append (p : Char → Bool) :
    ∀ (a b : List Char), (∀ c ∈ a, p c = false) →
      (b = [] ∨ ∃ c cs, b = c :: cs ∧ p c = true) →
      splitAtChar p (a ++ b) = (a, b) := by
  intro a
  induction a with
  | nil =>
    intro b _ hb
    rcases hb with rfl | ⟨c, cs, rfl, hc⟩
    · rfl
    · simp [splitAtChar, hc]
  | cons x xs ih =>
    intro b ha hb
    have hx : p x = false := ha x (List.mem_cons_self x xs)
    have hrec := ih b (fun c hc => ha c (List.mem_cons_of_mem x hc)) hb
    simp [splitAtChar, hx, hrec]

theorem renderAux_true_shape (rest : List (List Char)) :
    renderAux true rest = [] ∨
    (∃ t, renderAux true rest = '.' :: t) ∨
    (∃ t, renderAux true rest = '[' :: t) := by
  cases rest with
  | nil => exact Or.inl rfl
  | cons e r =>
    rw [renderAux]
    simp only [renderSeg]
    by_cases h : e.head? = some '['
    · rw [if_pos h]
      by_cases hd : pyIsDigit ((e.drop 1).dropLast) = true
      · rw [if_pos hd]
        exact Or.inr (Or.inr ⟨_, rfl⟩)
      · rw [if_neg hd]
        exact Or.inr (Or.inr ⟨_, rfl⟩)
    · rw [if_neg h]
      simp only [if_true]
      exact Or.inr (Or.inl ⟨_, rfl⟩)

theorem parse_plain (c : Char) (cs tail : List Char)
    (hall : ∀ x ∈ c :: cs, ¬ x = '.' ∧ ¬ x = '[')
    (htail : tail = [] ∨ (∃ t, tail = '.' :: t) ∨ (∃ t, tail = '[' :: t)) :
    parseSegs ((c :: cs) ++ tail) = (c :: cs) :: parseSegs tail := by
  have hc := hall c (List.mem_cons_self c cs)
  have hsplit : splitAtChar (fun x => x = '.' || x = '[') (cs ++ tail) =
      (cs, tail) := by
    apply splitAtChar_append
    · intro x hx
      have := hall x (List.mem_cons_of_mem c hx)
      simp [this.1, this.2]
    · rcases htail with rfl | ⟨t, rfl⟩ | ⟨t, rfl⟩
      · exact Or.inl rfl
      · exact Or.inr ⟨'.', t, rfl, by simp⟩
      · exact Or.inr ⟨'[', t, rfl, by simp⟩
  rw [List.cons_append, parseSegs]
  simp only [hc.1, hc.2, if_false, hsplit]

theorem parseSegs_dot (l : List Char) : parseSegs ('.' :: l) = parseSegs l := by
  rw [parseSegs]
  simp

theorem parseSegs_quoted (l : List Char) :
    parseSegs ('[' :: '"' :: l) =
      ('[' :: ((splitAtChar (fun x => x = '"') l).1 ++ [']'])) ::
        parseSegs (((splitAtChar (fun x => x = '"') l).2).drop 2) := by
  rw [parseSegs]
  simp

theorem parseSegs_bracket (k0 : Char) (l : List Char) (h0 : ¬ k0 = '"') :
    parseSegs ('[' :: k0 :: l) =
      ('[' :: ((splitAtChar (fun x => x = ']') (k0 :: l)).1 ++ [']'])) ::
        parseSegs (((splitAtChar (fun x => x = ']') (k0 :: l)).2).drop 1) := by
  rw [parseSegs]
  simp [h0]

theorem parseSegs_renderAux :
    ∀ (p : List (List Char)), (∀ s ∈ p, validSeg s = true) →
      ∀ prev, parseSegs (renderAux prev p) = p := by
  intro p
  induction p with
  | nil =>
    intro _ prev
    rw [renderAux, parseSegs]
  | cons e rest ih =>
    intro h prev
    have he := h e (List.mem_cons_self e rest)
    have hrest : ∀ s ∈ rest, validSeg s = true :=
      fun s hs => h s (List.mem_cons_of_mem e hs)
    cases e with
    | nil => simp [validSeg] at he
    | cons c cs =>
      by_cases hc : c = '['
      · subst hc
        by_cases hlast : cs.getLast? = some ']'
        · have hall : ∀ x ∈ cs.dropLast, ¬ x = '"' ∧ ¬ x = ']' := by
            have hv : validSeg ('[' :: cs) =
                (cs.dropLast).all (fun x => !(x = '"') && !(x = ']')) := by
              simp [validSeg, hlast]
            rw [hv] at he
            simpa using he
          have hne : cs ≠ [] := by
            intro h0
            rw [h0] at hlast
            simp at hlast
          have hkey : cs.dropLast ++ [']'] = cs := by
            conv_rhs => rw [← List.dropLast_append_getLast hne]
            congr 1
            rw [List.getLast?_eq_getLast cs hne] at hlast
            injection hlast with hlast2
            rw [hlast2]
          rw [renderAux]
          simp only [renderSeg]
          have hhead : (('[' :: cs).head? = some '[') := rfl
          rw [if_pos hhead]
          have hdrop : (('[' :: cs).drop 1).dropLast = cs.dropLast := rfl
          rw [hdrop]
          by_cases hd : pyIsDigit cs.dropLast = true
          · rw [if_pos hd]
            simp only [pyIsDigit, Bool.and_eq_true, List.all_eq_true,
              Bool.not_eq_true'] at hd
            have hkne : ¬ cs.dropLast.isEmpty = true := by
              simpa using hd.1
            obtain ⟨k0, ks, hks⟩ : ∃ k0 ks, cs.dropLast = k0 :: ks := by
              cases hcase : cs.dropLast with
              | nil => rw [hcase] at hkne; simp at hkne
              | cons a b => exact ⟨a, b, rfl⟩
            have hdig : ∀ x ∈ cs.dropLast, x.isDigit = true := by
              intro x hx
              simpa using hd.2 x hx
            have hq0 : ¬ k0 = '"' := by
              intro heq
              have := hdig k0 (by rw [hks]; exact List.mem_cons_self k0 ks)
              rw [heq] at this
              exact absurd this (by decide)
            rw [List.cons_append, List.append_assoc, List.singleton_append,
              hks, List.cons_append]
            rw [parseSegs_bracket k0 (ks ++ ']' :: renderAux prev rest) hq0]
            have hsp : splitAtChar (fun x => x = ']')
                ((k0 :: ks) ++ ']' :: renderAux prev rest) =
                (k0 :: ks, ']' :: renderAux prev rest) := by
              apply splitAtChar_append
              · intro x hx
                have := hdig x (by rw [hks]; exact hx)
                simp only [decide_eq_false_iff_not]
                intro heq
                rw [heq] at this
                exact absurd this (by decide)
              · exact Or.inr ⟨']', renderAux prev rest, rfl, by simp⟩
            rw [List.cons_append] at hsp
            rw [hsp]
            simp only [List.drop_succ_cons, List.drop_zero]
            rw [← hks, hkey, ih hrest prev]
          · rw [if_neg hd]
            rw [List.cons_append, List.cons_append, List.append_assoc]
            have hassoc : (['"', ']'] : List Char) ++ renderAux prev rest =
                '"' :: ']' :: renderAux prev rest := rfl
            rw [hassoc]
            rw [parseSegs_quoted (cs.dropLast ++ '"' :: ']' :: renderAux prev rest)]
            have hsp : splitAtChar (fun x => x = '"')
                (cs.dropLast ++ '"' :: ']' :: renderAux prev rest) =
                (cs.dropLast, '"' :: ']' :: renderAux prev rest) := by
              apply splitAtChar_append
              · intro x hx
                simp only [decide_eq_false_iff_not]
                exact (hall x hx).1
              · exact Or.inr ⟨'"', ']' :: renderAux prev rest, rfl, by simp⟩
            rw [hsp]
            simp only [List.drop_succ_cons, List.drop_zero]
            rw [hkey, ih hrest prev]
        · exfalso
          have hv : validSeg ('[' :: cs) = false := by
            simp [validSeg, hlast]
          rw [hv] at he
          exact absurd he (by simp)
      · have hall : ∀ x ∈ c :: cs, ¬ x = '.' ∧ ¬ x = '[' := by
          have hv : validSeg (c :: cs) =
              (c :: cs).all (fun x => !(x = '.') && !(x = '[')) := by
            simp [validSeg, hc]
          rw [hv] at he
          simpa using he
        rw [renderAux]
        simp only [renderSeg]
        have hhead : ¬ ((c :: cs).head? = some '[') := by
          simp [hc]
        rw [if_neg hhead]
        cases prev with
        | false =>
          simp only [Bool.false_eq_true, if_false]
          rw [parse_plain c cs (renderAux true rest) hall
            (renderAux_true_shape rest), ih hrest true]
        | true =>
          simp only [if_true]
          rw [List.cons_append, parseSegs_dot]
          rw [parse_plain c cs (renderAux true rest) hall
            (renderAux_true_shape rest), ih hrest true]

/-- C5: for every valid PropPath `p`,
`from_channel_address (to_channel_address p) = p`: rendering digit-only
bracket segments as bare numeric indices, other bracket segments as quoted
string keys, and dot-joined plain segments, then parsing the address back,
reconstructs exactly the original structured path. -/
theorem prop_path_roundtrip (p : List (List Char))
    (h : ∀ s ∈ p, validSeg s = true) :
    data_path_to_prop_path (prop_path_to_data_path p) = p :=
  parseSegs_renderAux p h false

/-- C5 witness: the PropPath `["modifiers", "[Array]", "count", "[1]"]`
(types.py example style) renders to `modifiers["Array"].count[1]` and
parses back to itself. -/
theorem prop_path_roundtrip_witness :
    data_path_to_prop_path (prop_path_to_data_path
      [['m', 'o', 'd', 'i', 'f', 'i', 'e', 'r', 's'],
       ['[', 'A', 'r', 'r', 'a', 'y', ']'],
       ['c', 'o', 'u', 'n', 't'],
       ['[', '1', ']']]) =
      [['m', 'o', 'd', 'i', 'f', 'i', 'e', 'r', 's'],
       ['[', 'A', 'r', 'r', 'a', 'y', ']'],
       ['c', 'o', 'u', 'n', 't'],
       ['[', '1', ']']] ∧
    prop_path_to_data_path
      [['m', 'o', 'd', 'i', 'f', 'i', 'e', 'r', 's'],
       ['[', 'A', 'r', 'r', 'a', 'y', ']'],
       ['c', 'o', 'u', 'n', 't'],
       ['[', '1', ']']] =
      ['m', 'o', 'd', 'i', 'f', 'i', 'e', 'r', 's',
       '[', '"', 'A', 'r', 'r', 'a', 'y', '"', ']',
       '.', 'c', 'o', 'u', 'n', 't', '[', '1', ']'] :=
  ⟨prop_path_roundtrip
    [['m', 'o', 'd', 'i', 'f', 'i', 'e', 'r', 's'],
     ['[', 'A', 'r', 'r', 'a', 'y', ']'],
     ['c', 'o', 'u', 'n', 't'],
     ['[', '1', ']']] (by decide), by decide⟩

end ModularMotion
